import Mathlib

/-!
Verification development for the `kafku` terminal dashboard
(`src/config.rs`, `src/kafka_client.rs`, `src/main.rs`).

The Rust source is shallowly embedded: machine integers become `Nat`/`Int`
(with explicit wrap-around where Rust release-profile arithmetic wraps),
fallible calls and `unwrap`/`expect` panics become `Except`/`Option`,
the external kafka client library and the crossterm event source are
modelled at their interface boundary, and the two loops that do not
terminate (`start_consumer`'s `loop`, the tick thread) are modelled with
explicit fuel / finite input traces.
-/

/-! ## UTF-8 model

`parse_message` in `src/kafka_client.rs` calls `str::from_utf8`, the Rust
standard library's strict UTF-8 validator/decoder.  We model byte strings
as `List Nat` (each element a byte value) and decoded strings as
`List Nat` of Unicode scalar values, with a strict decoder that rejects
overlong forms, surrogates and out-of-range code points exactly as
`str::from_utf8` does. -/

/-- Unicode scalar value: what a Rust `char` may hold. -/
def isScalar (c : Nat) : Prop := c < 0x110000 ∧ ¬ (0xD800 ≤ c ∧ c < 0xE000)

instance (c : Nat) : Decidable (isScalar c) := by
  unfold isScalar; exact inferInstance

/-- UTF-8 encoding of one Unicode scalar value. -/
def utf8EncodeChar (c : Nat) : List Nat :=
  if c < 0x80 then [c]
  else if c < 0x800 then [0xC0 + c / 0x40, 0x80 + c % 0x40]
  else if c < 0x10000 then [0xE0 + c / 0x1000, 0x80 + c / 0x40 % 0x40, 0x80 + c % 0x40]
  else [0xF0 + c / 0x40000, 0x80 + c / 0x1000 % 0x40, 0x80 + c / 0x40 % 0x40, 0x80 + c % 0x40]

/-- UTF-8 encoding of a string of Unicode scalar values. -/
def utf8Encode (s : List Nat) : List Nat := (s.map utf8EncodeChar).flatten

/-- Continuation byte test (second to fourth byte of a multi-byte sequence). -/
def isCont (b : Nat) : Bool := decide (0x80 ≤ b) && decide (b < 0xC0)

/-- Tail of a two-byte sequence with lead byte `b0` (`0xC2 ≤ b0 < 0xE0`). -/
def decodeTail2 (b0 : Nat) : List Nat → Option (Nat × List Nat)
  | b1 :: r =>
    if isCont b1 then some ((b0 - 0xC0) * 0x40 + (b1 - 0x80), r) else none
  | [] => none

/-- Tail of a three-byte sequence with lead byte `b0` (`0xE0 ≤ b0 < 0xF0`);
rejects overlong forms and surrogates. -/
def decodeTail3 (b0 : Nat) : List Nat → Option (Nat × List Nat)
  | b1 :: b2 :: r =>
    if isCont b1 && isCont b2 then
      if 0x800 ≤ (b0 - 0xE0) * 0x1000 + (b1 - 0x80) * 0x40 + (b2 - 0x80) ∧
          ¬ (0xD800 ≤ (b0 - 0xE0) * 0x1000 + (b1 - 0x80) * 0x40 + (b2 - 0x80) ∧
             (b0 - 0xE0) * 0x1000 + (b1 - 0x80) * 0x40 + (b2 - 0x80) < 0xE000) then
        some ((b0 - 0xE0) * 0x1000 + (b1 - 0x80) * 0x40 + (b2 - 0x80), r)
      else none
    else none
  | _ => none

/-- Tail of a four-byte sequence with lead byte `b0` (`0xF0 ≤ b0 < 0xF5`);
rejects overlong forms and code points above `0x10FFFF`. -/
def decodeTail4 (b0 : Nat) : List Nat → Option (Nat × List Nat)
  | b1 :: b2 :: b3 :: r =>
    if isCont b1 && isCont b2 && isCont b3 then
      if 0x10000 ≤ (b0 - 0xF0) * 0x40000 + (b1 - 0x80) * 0x1000 +
            (b2 - 0x80) * 0x40 + (b3 - 0x80) ∧
          (b0 - 0xF0) * 0x40000 + (b1 - 0x80) * 0x1000 +
            (b2 - 0x80) * 0x40 + (b3 - 0x80) < 0x110000 then
        some ((b0 - 0xF0) * 0x40000 + (b1 - 0x80) * 0x1000 +
              (b2 - 0x80) * 0x40 + (b3 - 0x80), r)
      else none
    else none
  | _ => none

/-- Decode one Unicode scalar value from lead byte `b0` followed by
`rest`, returning it with the unconsumed remainder.  Lead bytes `0x80`
to `0xC1` (stray continuation or always-overlong) and `0xF5` to `0xFF`
are rejected outright, exactly as in strict UTF-8. -/
def utf8DecodeStep (b0 : Nat) (rest : List Nat) : Option (Nat × List Nat) :=
  if b0 < 0x80 then some (b0, rest)
  else if b0 < 0xC2 then none
  else if b0 < 0xE0 then decodeTail2 b0 rest
  else if b0 < 0xF0 then decodeTail3 b0 rest
  else if b0 < 0xF5 then decodeTail4 b0 rest
  else none

theorem isCont_iff {b : Nat} : isCont b = true ↔ 0x80 ≤ b ∧ b < 0xC0 := by
  simp [isCont]

set_option maxRecDepth 2048

/-- Inversion of one decode step: the decoded value is a Unicode scalar
and re-encoding it reproduces exactly the consumed bytes. -/
theorem utf8DecodeStep_inv {b0 c : Nat} {rest r : List Nat}
    (h : utf8DecodeStep b0 rest = some (c, r)) :
    isScalar c ∧ utf8EncodeChar c ++ r = b0 :: rest := by
  unfold utf8DecodeStep at h
  split at h
  · rename_i h0
    simp only [Option.some.injEq, Prod.mk.injEq] at h
    obtain ⟨rfl, rfl⟩ := h
    refine ⟨by unfold isScalar; omega, ?_⟩
    rw [utf8EncodeChar, if_pos h0]
    simp
  · split at h
    · simp at h
    · split at h
      · rename_i h0 h1 h2
        match rest with
        | [] => simp [decodeTail2] at h
        | b1 :: t =>
          simp only [decodeTail2] at h
          split at h
          · rename_i hc1
            rw [isCont_iff] at hc1
            simp only [Option.some.injEq, Prod.mk.injEq] at h
            obtain ⟨rfl, rfl⟩ := h
            refine ⟨by unfold isScalar; omega, ?_⟩
            rw [utf8EncodeChar, if_neg (by omega), if_pos (by omega)]
            simp only [List.cons_append, List.nil_append, List.cons.injEq]
            refine ⟨by omega, by omega, trivial⟩
          · simp at h
      · split at h
        · rename_i h0 h1 h2 h3
          match rest with
          | [] => simp [decodeTail3] at h
          | [b1] => simp [decodeTail3] at h
          | b1 :: b2 :: t =>
            simp only [decodeTail3] at h
            split at h
            · rename_i hc
              rw [Bool.and_eq_true, isCont_iff, isCont_iff] at hc
              obtain ⟨hc1, hc2⟩ := hc
              split at h
              · rename_i hrange
                simp only [Option.some.injEq, Prod.mk.injEq] at h
                obtain ⟨rfl, rfl⟩ := h
                refine ⟨by unfold isScalar; omega, ?_⟩
                rw [utf8EncodeChar, if_neg (by omega), if_neg (by omega), if_pos (by omega)]
                simp only [List.cons_append, List.nil_append, List.cons.injEq]
                refine ⟨by omega, by omega, by omega, trivial⟩
              · simp at h
            · simp at h
        · split at h
          · rename_i h0 h1 h2 h3 h4
            match rest with
            | [] => simp [decodeTail4] at h
            | [b1] => simp [decodeTail4] at h
            | [b1, b2] => simp [decodeTail4] at h
            | b1 :: b2 :: b3 :: t =>
              simp only [decodeTail4] at h
              split at h
              · rename_i hc
                rw [Bool.and_eq_true, Bool.and_eq_true, isCont_iff, isCont_iff, isCont_iff] at hc
                obtain ⟨⟨hc1, hc2⟩, hc3⟩ := hc
                split at h
                · rename_i hrange
                  simp only [Option.some.injEq, Prod.mk.injEq] at h
                  obtain ⟨rfl, rfl⟩ := h
                  refine ⟨by unfold isScalar; omega, ?_⟩
                  rw [utf8EncodeChar, if_neg (by omega), if_neg (by omega), if_neg (by omega)]
                  simp only [List.cons_append, List.nil_append, List.cons.injEq]
                  refine ⟨by omega, by omega, by omega, by omega, trivial⟩
                · simp at h
              · simp at h
          · simp at h

theorem utf8EncodeChar_ne_nil (c : Nat) : utf8EncodeChar c ≠ [] := by
  unfold utf8EncodeChar
  split
  · simp
  · split
    · simp
    · split
      · simp
      · simp

/-- Every decode step consumes the lead byte, so the remainder is no
longer than the bytes after the lead byte. -/
theorem utf8DecodeStep_length {b0 : Nat} {rest r : List Nat} {c : Nat}
    (h : utf8DecodeStep b0 rest = some (c, r)) : r.length ≤ rest.length := by
  obtain ⟨-, henc⟩ := utf8DecodeStep_inv h
  have hlen := congrArg List.length henc
  simp only [List.length_append, List.length_cons] at hlen
  have hne := utf8EncodeChar_ne_nil c
  have hpos : 0 < (utf8EncodeChar c).length := List.length_pos.mpr hne
  omega

/-- Strict UTF-8 decoder, the model of `str::from_utf8`: `none` on any
invalid byte sequence (stray continuation byte, overlong form, surrogate,
code point above `0x10FFFF`, truncated sequence), otherwise the list of
decoded scalar values. -/
def utf8Decode (l : List Nat) : Option (List Nat) :=
  match l with
  | [] => some []
  | b0 :: rest =>
    match h : utf8DecodeStep b0 rest with
    | some (c, r) => (utf8Decode r).map (fun s => c :: s)
    | none => none
termination_by l.length
decreasing_by
  have := utf8DecodeStep_length h
  simp only [List.length_cons]
  omega

/-- Embedding of `parse_message` (`src/kafka_client.rs:129-131`):
`str::from_utf8(&message_bytes).unwrap().to_owned()`.  The `unwrap`
panic on invalid UTF-8 is modelled as `Except.error`. -/
def parse_message (message_bytes : List Nat) : Except Unit (List Nat) :=
  match utf8Decode message_bytes with
  | some s => .ok s
  | none => .error ()

/-! ## Selection navigation model

`src/main.rs` keeps a `ListState` selection for the user list and the
topic list; both are initialised with `select(Some(0))` (lines 120-121)
and mutated by the `KeyCode::Down`/`KeyCode::Up` handlers (lines 218-263),
whose arithmetic is on `usize`.  Rust release-profile `usize` arithmetic
wraps modulo `2^64`, which we make explicit. -/

/-- Size of the `usize` machine-integer domain. -/
def USIZE : Nat := 2 ^ 64

/-- Embedding of the `KeyCode::Down` handler body (`src/main.rs:229-238`):
`if selected >= amount - 1 { select(0) } else { select(selected + 1) }`,
with `amount - 1` the wrapping `usize` subtraction. -/
def navigate_down (amount selected : Nat) : Nat :=
  if selected ≥ (amount + USIZE - 1) % USIZE then 0 else selected + 1

/-- Embedding of the `KeyCode::Up` handler body (`src/main.rs:252-261`):
`if selected > 0 { select(selected - 1) } else { select(amount - 1) }`,
with `amount - 1` the wrapping `usize` subtraction. -/
def navigate_up (amount selected : Nat) : Nat :=
  if selected > 0 then selected - 1 else (amount + USIZE - 1) % USIZE

/-- Embedding of the selection update in `remove_user_at_index`
(`src/main.rs:548-552`): after removing the element at `selected`,
`if selected > 0 { select(selected - 1) } else { select(0) }`. -/
def remove_user_select (selected : Nat) : Nat :=
  if selected > 0 then selected - 1 else 0

/-- The selection both list states start with (`src/main.rs:120-121`):
`user_list_state.select(Some(0)); topic_list_state.select(Some(0))`. -/
def initialSelection : Option Nat := some 0

/-- A selection is valid for a list of length `len` when it is `some i`
with `i` in bounds. -/
def validSelection (len : Nat) (sel : Option Nat) : Prop :=
  ∃ i, sel = some i ∧ i < len

/-- Selected-topic lookup of `render_topics` (`src/main.rs:294-301`):
`topic_list.get(topic_list_state.selected().expect("there is always a
selected topic")).expect("exists")`.  Either `expect` panic is modelled
as `Except.error`; the output `TopicData` is defined below with the
broker model. -/
def render_selected {α : Type} (topic_list : List α) (s : Option Nat) : Except Unit α :=
  match s with
  | none => .error ()
  | some i =>
    match topic_list.get? i with
    | none => .error ()
    | some t => .ok t

/-! ## Broker metadata model

Interface boundary of the external kafka client library, as used by
`src/kafka_client.rs`: `load_metadata_all` either fails (transport error)
or yields the cluster metadata; `fetch_topic_offsets` either fails or
yields one `PartitionOffset` list for the queried topic.  A partition of
the library metadata exposes `id()`, `leader()` (`None` when no leader is
reachable, otherwise the leader's host string) and `is_available()`,
which holds exactly when a leader is present. -/

/-- One element of the library's `fetch_topic_offsets` result. -/
structure PartitionOffset where
  partition : Int
  offset : Int
deriving DecidableEq, Repr

/-- Library-side partition metadata: `p.id()` and `p.leader().map(|l| l.host())`. -/
structure PartitionMeta where
  id : Int
  leaderHost : Option String
deriving DecidableEq, Repr

/-- Modelled at the library boundary: `Partition::is_available()` holds
exactly when the partition has a reachable leader. -/
def PartitionMeta.is_available (p : PartitionMeta) : Bool := p.leaderHost.isSome

/-- Library-side topic metadata. -/
structure TopicMeta where
  name : String
  partitions : List PartitionMeta
deriving DecidableEq, Repr

/-- Library-side full cluster metadata. -/
structure ClusterMeta where
  topics : List TopicMeta
deriving DecidableEq, Repr

/-- Network behaviour of the broker set, as observable through the
library calls used by `SimpleKafkaClient`: `metadata = none` models a
transport failure of `load_metadata_all`, `topicOffsets t = none` a
failure of `fetch_topic_offsets` for topic `t`. -/
structure Broker where
  metadata : Option ClusterMeta
  topicOffsets : String → Option (List PartitionOffset)

/-- A network round trip made by the embedded client, recorded for
counting (`load_metadata_all` / `fetch_topic_offsets`). -/
inductive BrokerCall where
  | loadMetadataAll : BrokerCall
  | fetchTopicOffsets : String → BrokerCall
deriving DecidableEq, Repr

/-- Output `Partition` record of `src/kafka_client.rs:10-15`. -/
structure Partition where
  id : Int
  leader : String
  available : Bool
  offset : Int
deriving DecidableEq, Repr

/-- Output `TopicData` record of `src/kafka_client.rs:17-20`. -/
structure TopicData where
  name : String
  partitions : List Partition
deriving DecidableEq, Repr

/-- Partition construction inside `list_topic_details`
(`src/kafka_client.rs:63-75`): the leader host with fallback string
`"No Leader Available"`, `is_available`, and the offset joined from the
per-topic offset list by partition id with default `0`. -/
def mkPartition (offsets : List PartitionOffset) (p : PartitionMeta) : Partition :=
  { id := p.id
    leader := p.leaderHost.getD "No Leader Available"
    available := p.is_available
    offset := ((offsets.find? (fun o => o.partition == p.id)).map PartitionOffset.offset).getD 0 }

/-- Embedding of `get_offsets` (`src/kafka_client.rs:46-50`): it creates
a fresh client, calls `load_metadata_all().unwrap()` and then
`fetch_topic_offsets(topic, Latest).unwrap()`.  Both `unwrap` panics are
modelled as `Except.error`; the successful run also reports the network
round trips it made. -/
def get_offsets (b : Broker) (topic : String) :
    Except Unit (List PartitionOffset × List BrokerCall) :=
  match b.metadata with
  | none => .error ()
  | some _ =>
    match b.topicOffsets topic with
    | none => .error ()
    | some os => .ok (os, [.loadMetadataAll, .fetchTopicOffsets topic])

/-- The per-topic mapping body of `list_topic_details`
(`src/kafka_client.rs:58-81`): for each topic call `get_offsets` and
build its `TopicData` from the metadata partitions. -/
def buildTopics (b : Broker) : List TopicMeta → Except Unit (List TopicData × List BrokerCall)
  | [] => .ok ([], [])
  | t :: ts =>
    match get_offsets b t.name with
    | .error e => .error e
    | .ok (offsets, tr) =>
      match buildTopics b ts with
      | .error e => .error e
      | .ok (rest, tr2) =>
        .ok ({ name := t.name, partitions := t.partitions.map (mkPartition offsets) } :: rest,
             tr ++ tr2)

/-- Embedding of `list_topic_details` (`src/kafka_client.rs:52-83`): a
fresh client, `load_metadata_all().unwrap()`, then the topic map.  A
successful run returns the topic list together with the trace of network
round trips in the order they were made. -/
def list_topic_details (b : Broker) : Except Unit (List TopicData × List BrokerCall) :=
  match b.metadata with
  | none => .error ()
  | some m =>
    match buildTopics b m.topics with
    | .error e => .error e
    | .ok (tds, tr) => .ok (tds, .loadMetadataAll :: tr)

/-- Recogniser for offset-query round trips in a trace. -/
def isFetchCall : BrokerCall → Bool
  | .fetchTopicOffsets _ => true
  | .loadMetadataAll => false

/-- The round-trip trace a successful `list_topic_details` run produces:
one `load_metadata_all` for the topic enumeration, then per topic the
`load_metadata_all` + `fetch_topic_offsets` pair of its `get_offsets`
sub-call. -/
def refreshTrace (ts : List TopicMeta) : List BrokerCall :=
  BrokerCall.loadMetadataAll ::
    (ts.map fun t => [BrokerCall.loadMetadataAll, BrokerCall.fetchTopicOffsets t.name]).flatten

/-- The catalog a successful `list_topic_details` run produces: one
`TopicData` per metadata topic, in broker-reported order, each partition
built by `mkPartition` from that topic's offset-query result. -/
def refreshCatalog (b : Broker) (ts : List TopicMeta) : List TopicData :=
  ts.map fun t =>
    { name := t.name, partitions := t.partitions.map (mkPartition ((b.topicOffsets t.name).getD [])) }

/-! ## Consumer model

`start_consumer` (`src/kafka_client.rs:98-109`) drives a library
`Consumer`: an unbounded `loop` in which each iteration performs one
`consumer.poll().unwrap()` network round trip yielding a list of message
sets, decodes and delivers every message of every set to the callback
`f`, calls `consume_messageset(ms).unwrap()` per set, and ends with
`commit_consumed().unwrap()`.  The library consumer is modelled as the
stream of results its `poll` and `commit_consumed` calls would return;
`consume_messageset` only records already-delivered offsets client-side
and is modelled as succeeding.  The infinite `loop` is modelled with
explicit fuel (number of loop iterations to run). -/

/-- One message set returned by a `poll`: the payload byte strings of its
messages, in delivery order. -/
structure MessageSet where
  messages : List (List Nat)
deriving DecidableEq, Repr

/-- Stream view of the library consumer: the result of the `i`-th `poll`
round trip (`error` = transport failure, making `poll().unwrap()` panic)
and of the `i`-th `commit_consumed`. -/
structure ConsumerModel where
  polls : Nat → Except Unit (List MessageSet)
  commits : Nat → Except Unit Unit

/-- Embedding of `create_consumer` (`src/kafka_client.rs:85-96`): it
builds a consumer for `topic` with fallback offset `Earliest`, the fixed
group `"somegroup3"` and Kafka-side offset storage, then calls
`.create().unwrap()`.  The library's `create` — `none` when the session
cannot be opened — is the environment parameter, applied to the topic
and group the source hard-codes; the `unwrap` panic is `Except.error`. -/
def create_consumer (create : String → String → Option ConsumerModel) (topic : String) :
    Except Unit ConsumerModel :=
  match create topic "somegroup3" with
  | none => .error ()
  | some c => .ok c

/-- What a (fuel-bounded) run of `start_consumer` did: the decoded
messages delivered to the callback in order, the number of `poll` network
round trips performed, and whether an `unwrap` panicked (terminating the
process). -/
structure ConsumerRun where
  log : List (List Nat)
  pollCount : Nat
  panicked : Bool
deriving DecidableEq, Repr

/-- Deliver the messages of one message set in order
(`src/kafka_client.rs:101-104`): each payload goes through
`parse_message` and then to the callback.  Returns the delivered decoded
messages and whether a decode `unwrap` panicked; on a panic the messages
already delivered stay delivered. -/
def deliverMessages : List (List Nat) → List (List Nat) × Bool
  | [] => ([], false)
  | m :: ms =>
    match parse_message m with
    | .error _ => ([], true)
    | .ok s =>
      let (rest, p) := deliverMessages ms
      (s :: rest, p)

/-- Process the message sets of one `poll` result in order
(`src/kafka_client.rs:100-106`), stopping at the first panic. -/
def runSets : List MessageSet → List (List Nat) × Bool
  | [] => ([], false)
  | ms :: rest =>
    let (d, p) := deliverMessages ms.messages
    if p then (d, true)
    else
      let (d2, p2) := runSets rest
      (d ++ d2, p2)

/-- Embedding of `start_consumer` (`src/kafka_client.rs:98-109`), run for
`fuel` loop iterations starting at poll index `i`.  Each iteration:
`poll().unwrap()`, deliver every message of every returned set, then
`commit_consumed().unwrap()`.  The function has no normal return: a run
either panics or exhausts its fuel mid-loop. -/
def start_consumer (c : ConsumerModel) : Nat → Nat → ConsumerRun
  | 0, _ => { log := [], pollCount := 0, panicked := false }
  | fuel + 1, i =>
    match c.polls i with
    | .error _ => { log := [], pollCount := 1, panicked := true }
    | .ok sets =>
      let (d, p) := runSets sets
      if p then { log := d, pollCount := 1, panicked := true }
      else
        match c.commits i with
        | .error _ => { log := d, pollCount := 1, panicked := true }
        | .ok _ =>
          let r := start_consumer c fuel (i + 1)
          { log := d ++ r.log, pollCount := r.pollCount + 1, panicked := r.panicked }

/-- The messages one successful `poll` contributes to the log. -/
def pollLog (c : ConsumerModel) (i : Nat) : List (List Nat) :=
  match c.polls i with
  | .ok sets => (runSets sets).1
  | .error _ => []

/-- A consumer on which no `unwrap` inside `start_consumer` ever fires:
every poll succeeds with only valid-UTF-8 payloads and every commit
succeeds. -/
def goodConsumer (c : ConsumerModel) : Prop :=
  ∀ j, (∃ sets, c.polls j = .ok sets ∧ (runSets sets).2 = false) ∧ c.commits j = .ok ()

/-! ## Event scheduler model

The spawned thread of `src/main.rs:90-109` in discrete time: state is
the absolute current time and the `last_tick` instant; one loop
iteration blocks inside `event::poll(timeout)` for some duration chosen
by the environment (`wait`, bounded by the computed timeout when the
environment is well-formed), possibly reads one key event and forwards
it on the channel, then sends a `Tick` if `last_tick.elapsed() >=
tick_rate`, resetting `last_tick`.  Channel sends are modelled as
succeeding (the receiver lives as long as the run). -/

/-- Environment of one scheduler-loop iteration: how long `event::poll`
blocked before returning, and the key event it reported, if any. -/
structure SchedInput where
  wait : Nat
  key : Option Nat
deriving DecidableEq, Repr

/-- Scheduler-thread state: current absolute time and the `last_tick`
instant. -/
structure SchedState where
  now : Nat
  lastTick : Nat
deriving DecidableEq, Repr

/-- An event sent on the channel, stamped with its send time. -/
inductive SchedEvent where
  | input : Nat → Nat → SchedEvent
  | tick : Nat → SchedEvent
deriving DecidableEq, Repr

/-- The `event::poll` timeout of one iteration (`src/main.rs:93-95`):
`tick_rate.checked_sub(last_tick.elapsed()).unwrap_or(0)`, which is
exactly saturating `Nat` subtraction. -/
def schedTimeout (tickRate : Nat) (s : SchedState) : Nat :=
  tickRate - (s.now - s.lastTick)

/-- One iteration of the scheduler loop (`src/main.rs:92-108`). -/
def schedStep (tickRate : Nat) (s : SchedState) (inp : SchedInput) :
    SchedState × List SchedEvent :=
  let now1 := s.now + inp.wait
  let inputEvents :=
    match inp.key with
    | some k => [SchedEvent.input k now1]
    | none => []
  if now1 - s.lastTick ≥ tickRate then
    (⟨now1, now1⟩, inputEvents ++ [SchedEvent.tick now1])
  else
    (⟨now1, s.lastTick⟩, inputEvents)

/-- Run the scheduler loop over a finite trace of environment inputs,
collecting the events sent on the channel in order. -/
def schedRun (tickRate : Nat) (s : SchedState) : List SchedInput → SchedState × List SchedEvent
  | [] => (s, [])
  | inp :: rest =>
    ((schedRun tickRate (schedStep tickRate s inp).1 rest).1,
     (schedStep tickRate s inp).2 ++ (schedRun tickRate (schedStep tickRate s inp).1 rest).2)

/-- The send times of the `Tick` events of an event list, in order. -/
def tickTimes (evs : List SchedEvent) : List Nat :=
  evs.filterMap fun e =>
    match e with
    | .tick t => some t
    | .input _ _ => none

/-- The key codes of the `Input` events of an event list, in order. -/
def inputKeys (evs : List SchedEvent) : List Nat :=
  evs.filterMap fun e =>
    match e with
    | .input k _ => some k
    | .tick _ => none

/-! ## Concrete instances used as witnesses and counterexamples -/

/-- Metadata of the demo cluster: one topic `"orders"` with a led
partition 0 and a leaderless partition 1. -/
def demoTopics : List TopicMeta := [⟨"orders", [⟨0, some "b1"⟩, ⟨1, none⟩]⟩]

/-- A reachable broker exposing `demoTopics`, with offset result `42`
for partition 0 of `"orders"` and no offset result for partition 1. -/
def demoBroker : Broker where
  metadata := some ⟨demoTopics⟩
  topicOffsets := fun t => if t = "orders" then some [⟨0, 42⟩] else none

/-- An unreachable broker: `load_metadata_all` fails. -/
def downBroker : Broker where
  metadata := none
  topicOffsets := fun _ => none

/-- A broker whose metadata loads (one topic `"orders"`) but whose
offset queries all fail. -/
def demoOffsetFailBroker : Broker where
  metadata := some ⟨[⟨"orders", []⟩]⟩
  topicOffsets := fun _ => none

/-- A consumer whose polls always succeed with one message set of two
valid-UTF-8 messages (`"A"`, `"B"`) and whose commits always succeed. -/
def demoGoodConsumer : ConsumerModel where
  polls := fun _ => .ok [⟨[[0x41], [0x42]]⟩]
  commits := fun _ => .ok ()

/-- A consumer whose every poll fails at the transport level. -/
def demoFailPollConsumer : ConsumerModel where
  polls := fun _ => .error ()
  commits := fun _ => .ok ()

/-- A consumer whose polls return one message set holding a valid
message (`"A"`) followed by a non-UTF-8 payload (a stray continuation
byte). -/
def demoBadPayloadConsumer : ConsumerModel where
  polls := fun _ => .ok [⟨[[0x41], [0x80]]⟩]
  commits := fun _ => .ok ()

/-- A consumer whose polls succeed with one valid message (`"A"`) but
whose commits always fail. -/
def demoCommitFailConsumer : ConsumerModel where
  polls := fun _ => .ok [⟨[[0x41]]⟩]
  commits := fun _ => .error ()

/-- A scheduler environment trace: rapid input, then quiet stretches. -/
def demoSchedTrace : List SchedInput :=
  [⟨0, some 5⟩, ⟨50, some 6⟩, ⟨150, none⟩, ⟨10, some 7⟩, ⟨200, none⟩]

/-! ## Lemmas: UTF-8 round trips -/

theorem utf8Decode_nil : utf8Decode [] = some [] := by
  rw [utf8Decode]

theorem utf8Decode_cons_some {b0 c : Nat} {rest r : List Nat}
    (h : utf8DecodeStep b0 rest = some (c, r)) :
    utf8Decode (b0 :: rest) = (utf8Decode r).map (fun s => c :: s) := by
  rw [utf8Decode]
  split
  · rename_i c' r' heq
    rw [h] at heq
    simp only [Option.some.injEq, Prod.mk.injEq] at heq
    obtain ⟨rfl, rfl⟩ := heq
    rfl
  · rename_i heq
    rw [h] at heq
    simp at heq

theorem utf8Decode_cons_none {b0 : Nat} {rest : List Nat}
    (h : utf8DecodeStep b0 rest = none) : utf8Decode (b0 :: rest) = none := by
  rw [utf8Decode]
  split
  · rename_i c' r' heq
    rw [h] at heq
    simp at heq
  · rfl

theorem utf8DecodeStep_encode {c : Nat} (h : isScalar c) (bs : List Nat) :
    ∃ b0 tl, utf8EncodeChar c = b0 :: tl ∧ utf8DecodeStep b0 (tl ++ bs) = some (c, bs) := by
  obtain ⟨hlt, hsur⟩ := h
  by_cases h1 : c < 0x80
  · refine ⟨c, [], by rw [utf8EncodeChar, if_pos h1], ?_⟩
    rw [utf8DecodeStep, if_pos h1]
    simp
  · by_cases h2 : c < 0x800
    · refine ⟨0xC0 + c / 0x40, [0x80 + c % 0x40],
        by rw [utf8EncodeChar, if_neg h1, if_pos h2], ?_⟩
      rw [utf8DecodeStep, if_neg (by omega), if_neg (by omega), if_pos (by omega)]
      simp only [List.cons_append, List.nil_append, decodeTail2]
      rw [if_pos (by rw [isCont_iff]; omega)]
      simp only [Option.some.injEq, Prod.mk.injEq]
      exact ⟨by omega, trivial⟩
    · by_cases h3 : c < 0x10000
      · refine ⟨0xE0 + c / 0x1000, [0x80 + c / 0x40 % 0x40, 0x80 + c % 0x40],
          by rw [utf8EncodeChar, if_neg h1, if_neg h2, if_pos h3], ?_⟩
        rw [utf8DecodeStep, if_neg (by omega), if_neg (by omega), if_neg (by omega),
          if_pos (by omega)]
        simp only [List.cons_append, List.nil_append, decodeTail3]
        rw [if_pos (by rw [Bool.and_eq_true, isCont_iff, isCont_iff]; omega)]
        rw [if_pos (by omega)]
        simp only [Option.some.injEq, Prod.mk.injEq]
        exact ⟨by omega, trivial⟩
      · refine ⟨0xF0 + c / 0x40000, [0x80 + c / 0x1000 % 0x40, 0x80 + c / 0x40 % 0x40,
          0x80 + c % 0x40], by rw [utf8EncodeChar, if_neg h1, if_neg h2, if_neg h3], ?_⟩
        rw [utf8DecodeStep, if_neg (by omega), if_neg (by omega), if_neg (by omega),
          if_neg (by omega), if_pos (by omega)]
        simp only [List.cons_append, List.nil_append, decodeTail4]
        rw [if_pos (by rw [Bool.and_eq_true, Bool.and_eq_true, isCont_iff, isCont_iff,
          isCont_iff]; omega)]
        rw [if_pos (by omega)]
        simp only [Option.some.injEq, Prod.mk.injEq]
        exact ⟨by omega, trivial⟩

theorem utf8Decode_encodeChar_append {c : Nat} (h : isScalar c) (bs : List Nat) :
    utf8Decode (utf8EncodeChar c ++ bs) = (utf8Decode bs).map (fun s => c :: s) := by
  obtain ⟨b0, tl, he, hstep⟩ := utf8DecodeStep_encode h bs
  rw [he, List.cons_append]
  exact utf8Decode_cons_some hstep

theorem utf8Encode_cons (c : Nat) (s : List Nat) :
    utf8Encode (c :: s) = utf8EncodeChar c ++ utf8Encode s := by
  simp [utf8Encode]

theorem utf8Decode_utf8Encode (s : List Nat) (h : ∀ c ∈ s, isScalar c) :
    utf8Decode (utf8Encode s) = some s := by
  induction s with
  | nil =>
    simp only [utf8Encode, List.map_nil, List.flatten_nil]
    exact utf8Decode_nil
  | cons c s ih =>
    rw [utf8Encode_cons, utf8Decode_encodeChar_append (h c (by simp)),
      ih (fun d hd => h d (by simp [hd]))]
    rfl

theorem utf8Encode_utf8Decode_bounded :
    ∀ (n : Nat) (l : List Nat), l.length ≤ n → ∀ s, utf8Decode l = some s → utf8Encode s = l := by
  intro n
  induction n with
  | zero =>
    intro l hl s h
    match l with
    | [] =>
      rw [utf8Decode_nil] at h
      simp only [Option.some.injEq] at h
      subst h
      simp [utf8Encode]
    | b :: t => simp at hl
  | succ n ih =>
    intro l hl s h
    match l with
    | [] =>
      rw [utf8Decode_nil] at h
      simp only [Option.some.injEq] at h
      subst h
      simp [utf8Encode]
    | b0 :: rest =>
      cases hstep : utf8DecodeStep b0 rest with
      | none => rw [utf8Decode_cons_none hstep] at h; simp at h
      | some cr =>
        obtain ⟨c, r⟩ := cr
        rw [utf8Decode_cons_some hstep] at h
        rw [Option.map_eq_some'] at h
        obtain ⟨s', hs', rfl⟩ := h
        obtain ⟨hsc, henc⟩ := utf8DecodeStep_inv hstep
        have hr : r.length ≤ n := by
          have := utf8DecodeStep_length hstep
          simp only [List.length_cons] at hl
          omega
        rw [utf8Encode_cons, ih r hr s' hs', henc]

theorem utf8Encode_utf8Decode {l s : List Nat} (h : utf8Decode l = some s) :
    utf8Encode s = l :=
  utf8Encode_utf8Decode_bounded l.length l (le_refl _) s h

/-! ## Lemmas: metadata refresh -/

theorem buildTopics_ok (b : Broker) (ts : List TopicMeta)
    (hm : b.metadata.isSome) (hoff : ∀ t ∈ ts, (b.topicOffsets t.name).isSome) :
    buildTopics b ts =
      .ok (ts.map (fun t =>
            { name := t.name
              partitions := t.partitions.map (mkPartition ((b.topicOffsets t.name).getD [])) }),
          (ts.map fun t =>
            [BrokerCall.loadMetadataAll, BrokerCall.fetchTopicOffsets t.name]).flatten) := by
  induction ts with
  | nil => simp [buildTopics]
  | cons t ts ih =>
    have ht : (b.topicOffsets t.name).isSome := hoff t (by simp)
    have hts : ∀ u ∈ ts, (b.topicOffsets u.name).isSome := fun u hu => hoff u (by simp [hu])
    obtain ⟨m, hm'⟩ := Option.isSome_iff_exists.mp hm
    obtain ⟨os, hos⟩ := Option.isSome_iff_exists.mp ht
    simp only [buildTopics, get_offsets, hm', hos, ih hts]
    simp [hos]

theorem list_topic_details_ok (b : Broker) (m : ClusterMeta)
    (hm : b.metadata = some m) (hoff : ∀ t ∈ m.topics, (b.topicOffsets t.name).isSome) :
    list_topic_details b = .ok (refreshCatalog b m.topics, refreshTrace m.topics) := by
  have hs : b.metadata.isSome := by rw [hm]; rfl
  simp only [list_topic_details, hm, buildTopics_ok b m.topics hs hoff,
    refreshCatalog, refreshTrace]

theorem buildTopics_error (b : Broker) (hm : b.metadata.isSome) :
    ∀ (ts1 : List TopicMeta) (t : TopicMeta) (ts2 : List TopicMeta),
      (∀ u ∈ ts1, (b.topicOffsets u.name).isSome) →
      b.topicOffsets t.name = none →
      buildTopics b (ts1 ++ t :: ts2) = .error () := by
  intro ts1
  induction ts1 with
  | nil =>
    intro t ts2 _ ht
    obtain ⟨m, hm2⟩ := Option.isSome_iff_exists.mp hm
    simp [buildTopics, get_offsets, hm2, ht]
  | cons u ts1 ih =>
    intro t ts2 hpre ht
    obtain ⟨m, hm2⟩ := Option.isSome_iff_exists.mp hm
    obtain ⟨os, hos⟩ := Option.isSome_iff_exists.mp (hpre u (by simp))
    have hrec := ih t ts2 (fun v hv => hpre v (by simp [hv])) ht
    simp [buildTopics, get_offsets, hm2, hos, hrec]

/-- A single failing offset query makes the whole refresh panic: with
the metadata loaded, the first topic whose `fetch_topic_offsets` fails
aborts `list_topic_details` through the `unwrap` in `get_offsets`. -/
theorem list_topic_details_offset_error (b : Broker) (m : ClusterMeta)
    (ts1 ts2 : List TopicMeta) (t : TopicMeta)
    (hm : b.metadata = some m) (hts : m.topics = ts1 ++ t :: ts2)
    (hpre : ∀ u ∈ ts1, (b.topicOffsets u.name).isSome)
    (ht : b.topicOffsets t.name = none) :
    list_topic_details b = .error () := by
  have hs : b.metadata.isSome := by rw [hm]; rfl
  simp [list_topic_details, hm, hts, buildTopics_error b hs ts1 t ts2 hpre ht]

theorem perTopicTrace_count_load (ts : List TopicMeta) :
    ((ts.map fun t => [BrokerCall.loadMetadataAll, BrokerCall.fetchTopicOffsets t.name]).flatten).count
        BrokerCall.loadMetadataAll = ts.length := by
  induction ts with
  | nil => simp
  | cons t ts ih =>
    simp only [List.map_cons, List.flatten_cons, List.count_append, ih, List.length_cons]
    simp [List.count_cons]
    omega

theorem perTopicTrace_fetches (ts : List TopicMeta) :
    ((ts.map fun t => [BrokerCall.loadMetadataAll, BrokerCall.fetchTopicOffsets t.name]).flatten).filter
        isFetchCall = ts.map (fun t => BrokerCall.fetchTopicOffsets t.name) := by
  induction ts with
  | nil => simp
  | cons t ts ih =>
    simp only [List.map_cons, List.flatten_cons, List.filter_append, ih]
    simp [List.filter_cons, isFetchCall]

theorem refreshTrace_count_load (ts : List TopicMeta) :
    (refreshTrace ts).count BrokerCall.loadMetadataAll = ts.length + 1 := by
  simp [refreshTrace, List.count_cons, perTopicTrace_count_load]

theorem refreshTrace_fetches (ts : List TopicMeta) :
    (refreshTrace ts).filter isFetchCall =
      ts.map (fun t => BrokerCall.fetchTopicOffsets t.name) := by
  rw [refreshTrace, List.filter_cons]
  rw [if_neg (by simp [isFetchCall])]
  exact perTopicTrace_fetches ts

/-! ## Lemmas: consumer loop -/

theorem deliverMessages_all_valid (ms : List (List Nat))
    (h : ∀ m ∈ ms, (utf8Decode m).isSome) :
    deliverMessages ms = (ms.map (fun m => (utf8Decode m).getD []), false) := by
  induction ms with
  | nil => simp [deliverMessages]
  | cons m ms ih =>
    obtain ⟨s, hs⟩ := Option.isSome_iff_exists.mp (h m (by simp))
    have hrest := ih (fun u hu => h u (by simp [hu]))
    simp only [deliverMessages, parse_message, hs, hrest]
    simp [hs]

theorem deliverMessages_stops_at_bad (pre : List (List Nat)) (bad : List Nat)
    (rest : List (List Nat))
    (hpre : ∀ m ∈ pre, (utf8Decode m).isSome) (hbad : utf8Decode bad = none) :
    deliverMessages (pre ++ bad :: rest) =
      (pre.map (fun m => (utf8Decode m).getD []), true) := by
  induction pre with
  | nil => simp [deliverMessages, parse_message, hbad]
  | cons m pre ih =>
    obtain ⟨s, hs⟩ := Option.isSome_iff_exists.mp (hpre m (by simp))
    have hrest := ih (fun u hu => hpre u (by simp [hu]))
    simp only [List.cons_append, deliverMessages, parse_message, hs, hrest]
    simp [hs, hrest]

theorem start_consumer_good (c : ConsumerModel) (h : goodConsumer c) :
    ∀ (fuel i : Nat),
    start_consumer c fuel i =
      { log := ((List.range fuel).map (fun k => pollLog c (i + k))).flatten
        pollCount := fuel
        panicked := false } := by
  intro fuel
  induction fuel with
  | zero => intro i; simp [start_consumer]
  | succ fuel ih =>
    intro i
    obtain ⟨⟨sets, hok, hnp⟩, hcommit⟩ := h i
    rcases hrs : runSets sets with ⟨d, p⟩
    rw [hrs] at hnp
    simp only at hnp
    subst hnp
    have hplog : pollLog c i = d := by simp [pollLog, hok, hrs]
    have hexp : ((List.range (fuel + 1)).map (fun k => pollLog c (i + k))).flatten =
        pollLog c i ++ ((List.range fuel).map (fun k => pollLog c (i + 1 + k))).flatten := by
      rw [List.range_succ_eq_map]
      simp only [List.map_cons, Nat.add_zero, List.flatten_cons, List.map_map]
      congr 1
      congr 1
      apply List.map_congr_left
      intro k _
      simp only [Function.comp_apply]
      congr 1
      omega
    simp only [start_consumer, hok, hrs, hcommit, ih (i + 1)]
    simp [hexp, hplog]

theorem start_consumer_poll_error (c : ConsumerModel) (fuel i : Nat)
    (h : c.polls i = .error ()) :
    start_consumer c (fuel + 1) i = { log := [], pollCount := 1, panicked := true } := by
  simp [start_consumer, h]

theorem runSets_head_bad (good bad g : List Nat) (rest : List (List Nat))
    (tailSets : List MessageSet)
    (hg : utf8Decode good = some g) (hbad : utf8Decode bad = none) :
    runSets (⟨good :: bad :: rest⟩ :: tailSets) = ([g], true) := by
  have hd := deliverMessages_stops_at_bad [good] bad rest (by simp [hg]) hbad
  simp only [List.cons_append, List.nil_append, List.map_cons, List.map_nil, hg,
    Option.getD_some] at hd
  simp [runSets, hd]

theorem start_consumer_decode_error (c : ConsumerModel) (fuel i : Nat)
    (good bad g : List Nat) (rest : List (List Nat))
    (hg : utf8Decode good = some g) (hbad : utf8Decode bad = none)
    (h : c.polls i = .ok [⟨good :: bad :: rest⟩]) :
    start_consumer c (fuel + 1) i = { log := [g], pollCount := 1, panicked := true } := by
  simp only [start_consumer, h, runSets_head_bad good bad g rest [] hg hbad]
  simp

theorem start_consumer_commit_error (c : ConsumerModel) (fuel i : Nat)
    (sets : List MessageSet)
    (hok : c.polls i = .ok sets) (hnp : (runSets sets).2 = false)
    (hc : c.commits i = .error ()) :
    start_consumer c (fuel + 1) i =
      { log := (runSets sets).1, pollCount := 1, panicked := true } := by
  rcases hrs : runSets sets with ⟨d, p⟩
  rw [hrs] at hnp
  simp only at hnp
  subst hnp
  simp only [start_consumer, hok, hrs, hc]
  simp

/-! ## Lemmas: event scheduler -/

theorem schedStep_tick (tickRate : Nat) (s : SchedState) (inp : SchedInput)
    (htick : tickRate ≤ s.now + inp.wait - s.lastTick) :
    schedStep tickRate s inp =
      (⟨s.now + inp.wait, s.now + inp.wait⟩,
        (match inp.key with
         | some k => [SchedEvent.input k (s.now + inp.wait)]
         | none => []) ++ [SchedEvent.tick (s.now + inp.wait)]) := by
  simp only [schedStep, ge_iff_le, if_pos htick]

theorem schedStep_no_tick (tickRate : Nat) (s : SchedState) (inp : SchedInput)
    (htick : ¬ tickRate ≤ s.now + inp.wait - s.lastTick) :
    schedStep tickRate s inp =
      (⟨s.now + inp.wait, s.lastTick⟩,
        match inp.key with
        | some k => [SchedEvent.input k (s.now + inp.wait)]
        | none => []) := by
  simp only [schedStep, ge_iff_le, if_neg htick]

theorem tickTimes_append (a b : List SchedEvent) :
    tickTimes (a ++ b) = tickTimes a ++ tickTimes b := by
  simp [tickTimes]

theorem inputKeys_append (a b : List SchedEvent) :
    inputKeys (a ++ b) = inputKeys a ++ inputKeys b := by
  simp [inputKeys]

theorem tickTimes_keyEvents (k : Option Nat) (t : Nat) :
    tickTimes (match k with
      | some k => [SchedEvent.input k t]
      | none => []) = [] := by
  cases k <;> simp [tickTimes]

theorem inputKeys_keyEvents (k : Option Nat) (t : Nat) :
    inputKeys (match k with
      | some k => [SchedEvent.input k t]
      | none => []) = k.toList := by
  cases k <;> simp [inputKeys]

theorem schedRun_tick_spacing (tickRate : Nat) :
    ∀ (inputs : List SchedInput) (s : SchedState), s.lastTick ≤ s.now →
      (∀ t ∈ tickTimes (schedRun tickRate s inputs).2, s.lastTick + tickRate ≤ t) ∧
      List.Chain' (fun a b => a + tickRate ≤ b) (tickTimes (schedRun tickRate s inputs).2) := by
  intro inputs
  induction inputs with
  | nil => intro s hs; simp [schedRun, tickTimes]
  | cons inp rest ih =>
    intro s hs
    by_cases htick : tickRate ≤ s.now + inp.wait - s.lastTick
    · obtain ⟨ihb, ihc⟩ := ih ⟨s.now + inp.wait, s.now + inp.wait⟩ (le_refl _)
      simp only [schedRun, schedStep_tick tickRate s inp htick, tickTimes_append,
        tickTimes_keyEvents, List.nil_append] at *
      have hone : tickTimes [SchedEvent.tick (s.now + inp.wait)] = [s.now + inp.wait] := by
        simp [tickTimes]
      rw [hone]
      constructor
      · intro t ht
        simp only [List.cons_append, List.nil_append, List.mem_cons] at ht
        rcases ht with rfl | ht
        · omega
        · have := ihb t ht
          omega
      · rw [List.cons_append, List.nil_append, List.chain'_cons']
        refine ⟨?_, ihc⟩
        intro y hy
        have hmem : y ∈ tickTimes (schedRun tickRate ⟨s.now + inp.wait, s.now + inp.wait⟩ rest).2 :=
          List.mem_of_mem_head? hy
        have := ihb y hmem
        omega
    · obtain ⟨ihb, ihc⟩ := ih ⟨s.now + inp.wait, s.lastTick⟩ (by simp; omega)
      simp only [schedRun, schedStep_no_tick tickRate s inp htick, tickTimes_append,
        tickTimes_keyEvents, List.nil_append] at *
      exact ⟨ihb, ihc⟩

theorem schedRun_no_input_dropped (tickRate : Nat) :
    ∀ (inputs : List SchedInput) (s : SchedState),
      inputKeys (schedRun tickRate s inputs).2 = inputs.filterMap SchedInput.key := by
  intro inputs
  induction inputs with
  | nil => intro s; simp [schedRun, inputKeys]
  | cons inp rest ih =>
    intro s
    by_cases htick : tickRate ≤ s.now + inp.wait - s.lastTick
    · simp only [schedRun, schedStep_tick tickRate s inp htick, inputKeys_append,
        inputKeys_keyEvents, List.filterMap_cons]
      have hone : inputKeys [SchedEvent.tick (s.now + inp.wait)] = [] := by
        simp [inputKeys]
      rw [hone, ih]
      cases hk : inp.key <;> simp [hk]
    · simp only [schedRun, schedStep_no_tick tickRate s inp htick, inputKeys_append,
        inputKeys_keyEvents, List.filterMap_cons]
      rw [ih]
      cases hk : inp.key <;> simp [hk]

/-! ## Claims -/

/-- C3, counterexample: the claim fixes the fallback leader string as the
exact text "no leader available", but `list_topic_details` builds a
leaderless partition with the text "No Leader Available" (different
capitalisation), so the claimed conjunction fails on a concrete
leaderless partition. -/
theorem C3_leaderless_string_counterexample :
    ¬ ((mkPartition [] ⟨0, none⟩).leader = "no leader available" ∧
       (mkPartition [] ⟨0, none⟩).available = false) := by
  intro h
  exact absurd h.1 (by decide)

/-- C3, amended: a partition with no reachable leader is reported with
leader string "No Leader Available" (title case) and `available = false`,
and a refresh whose transport calls succeed still succeeds as a whole. -/
theorem C3_leaderless_partition (offsets : List PartitionOffset) (p : PartitionMeta)
    (b : Broker) (m : ClusterMeta) (hp : p.leaderHost = none)
    (hm : b.metadata = some m) (hoff : ∀ t ∈ m.topics, (b.topicOffsets t.name).isSome) :
    (mkPartition offsets p).leader = "No Leader Available" ∧
    (mkPartition offsets p).available = false ∧
    list_topic_details b = .ok (refreshCatalog b m.topics, refreshTrace m.topics) := by
  refine ⟨?_, ?_, list_topic_details_ok b m hm hoff⟩
  · simp [mkPartition, hp]
  · simp [mkPartition, PartitionMeta.is_available, hp]

/-- C3 witness: instantiated on `demoBroker`, whose topic "orders" holds
the leaderless partition 1. -/
theorem C3_leaderless_partition_witness :
    (mkPartition [] ⟨1, none⟩).leader = "No Leader Available" ∧
    (mkPartition [] ⟨1, none⟩).available = false ∧
    list_topic_details demoBroker =
      .ok (refreshCatalog demoBroker demoTopics,
           refreshTrace demoTopics) :=
  C3_leaderless_partition [] ⟨1, none⟩ demoBroker ⟨demoTopics⟩
    rfl rfl (by decide)

/-- C9: a partition whose id matches no entry of the topic's offset-query
result gets `latestOffset = 0`, and the refresh still succeeds. -/
theorem C9_missing_offset_defaults_zero (offsets : List PartitionOffset) (p : PartitionMeta)
    (b : Broker) (m : ClusterMeta)
    (hfind : offsets.find? (fun o => o.partition == p.id) = none)
    (hm : b.metadata = some m) (hoff : ∀ t ∈ m.topics, (b.topicOffsets t.name).isSome) :
    (mkPartition offsets p).offset = 0 ∧
    list_topic_details b = .ok (refreshCatalog b m.topics, refreshTrace m.topics) := by
  refine ⟨?_, list_topic_details_ok b m hm hoff⟩
  simp [mkPartition, hfind]

/-- C9 witness: partition 1 of `demoBroker`'s topic has no entry in the
offset result `[⟨0, 42⟩]`. -/
theorem C9_missing_offset_defaults_zero_witness :
    (mkPartition [⟨0, 42⟩] ⟨1, none⟩).offset = 0 ∧
    list_topic_details demoBroker =
      .ok (refreshCatalog demoBroker demoTopics,
           refreshTrace demoTopics) :=
  C9_missing_offset_defaults_zero [⟨0, 42⟩] ⟨1, none⟩ demoBroker
    ⟨demoTopics⟩ (by decide) rfl (by decide)

/-- C4, counterexample: the claim says a refresh loads the full cluster
metadata exactly once, but on a broker with a single topic the successful
run's trace contains two `load_metadata_all` round trips (one in
`list_topic_details` itself and one in its `get_offsets` sub-call). -/
theorem C4_metadata_once_counterexample :
    ∃ r tr, list_topic_details demoBroker = .ok (r, tr) ∧
      tr.count BrokerCall.loadMetadataAll ≠ 1 :=
  ⟨_, _, rfl, by decide⟩

/-- C4, amended: a successful refresh loads the full cluster metadata
once for the topic enumeration plus once more per topic (inside each
per-topic `get_offsets`), and issues exactly one latest-offset query per
topic (not per partition), in broker topic order; the per-partition
offsets are joined by partition id through `mkPartition`. -/
theorem C4_one_offset_query_per_topic (b : Broker) (m : ClusterMeta)
    (hm : b.metadata = some m) (hoff : ∀ t ∈ m.topics, (b.topicOffsets t.name).isSome) :
    list_topic_details b = .ok (refreshCatalog b m.topics, refreshTrace m.topics) ∧
    (refreshTrace m.topics).count BrokerCall.loadMetadataAll = m.topics.length + 1 ∧
    (refreshTrace m.topics).filter isFetchCall =
      m.topics.map (fun t => BrokerCall.fetchTopicOffsets t.name) :=
  ⟨list_topic_details_ok b m hm hoff, refreshTrace_count_load m.topics,
    refreshTrace_fetches m.topics⟩

/-- C4 witness: the amended statement evaluated on `demoBroker`. -/
theorem C4_one_offset_query_per_topic_witness :
    list_topic_details demoBroker =
      .ok (refreshCatalog demoBroker demoTopics,
           refreshTrace demoTopics) ∧
    (refreshTrace demoTopics).count
        BrokerCall.loadMetadataAll = demoTopics.length + 1 ∧
    (refreshTrace demoTopics).filter isFetchCall =
      demoTopics.map
        (fun t => BrokerCall.fetchTopicOffsets t.name) :=
  C4_one_offset_query_per_topic demoBroker ⟨demoTopics⟩
    rfl (by decide)

/-- C5, counterexample: both list states are initialised with
`select(Some(0))` regardless of list length, so on an empty topic
catalog the selected index 0 is not a valid index (and the topics
renderer's selected-topic lookup panics). -/
theorem C5_valid_selection_counterexample :
    ¬ validSelection (List.length ([] : List TopicData)) initialSelection := by
  simp [validSelection, initialSelection]

/-- C5, amended: for a non-empty list the initial selection 0 is valid,
down/up navigation keeps the selection in bounds (wrapping at both
ends), the renderer's selected-element lookup succeeds, and the
remove-element selection update stays in bounds as long as the list does
not become empty; for an empty list the initial index 0 is out of
bounds. -/
theorem C5_selection_in_bounds (topics : List TopicData) (sel : Nat)
    (hne : topics ≠ []) (hN : topics.length < USIZE) (hs : sel < topics.length) :
    validSelection topics.length initialSelection ∧
    navigate_down topics.length sel < topics.length ∧
    navigate_up topics.length sel < topics.length ∧
    (∃ t, render_selected topics (some sel) = .ok t) ∧
    (∀ len, 2 ≤ len → sel < len → remove_user_select sel < len - 1) := by
  have hpos : 0 < topics.length := List.length_pos.mpr hne
  have hN2 : topics.length < 2 ^ 64 := hN
  refine ⟨⟨0, rfl, hpos⟩, ?_, ?_, ?_, ?_⟩
  · unfold navigate_down USIZE
    split <;> omega
  · unfold navigate_up USIZE
    split <;> omega
  · refine ⟨topics.get ⟨sel, hs⟩, ?_⟩
    have hg : topics.get? sel = some (topics.get ⟨sel, hs⟩) := List.get?_eq_get hs
    simp only [render_selected, hg]
  · intro len h2 hlen
    unfold remove_user_select
    split <;> omega

/-- C5 witness: a one-topic catalog with selection 0. -/
theorem C5_selection_in_bounds_witness :
    validSelection [(⟨"orders", []⟩ : TopicData)].length initialSelection ∧
    navigate_down [(⟨"orders", []⟩ : TopicData)].length 0 < [(⟨"orders", []⟩ : TopicData)].length ∧
    navigate_up [(⟨"orders", []⟩ : TopicData)].length 0 < [(⟨"orders", []⟩ : TopicData)].length ∧
    (∃ t, render_selected [(⟨"orders", []⟩ : TopicData)] (some 0) = .ok t) ∧
    (∀ len, 2 ≤ len → 0 < len → remove_user_select 0 < len - 1) :=
  C5_selection_in_bounds [⟨"orders", []⟩] 0 (by decide) (by decide) (by decide)

/-- C6: down at the last index wraps to 0, up at index 0 wraps to the
last index, otherwise down/up move by one, and on a one-element list
both are no-ops; exactly the `KeyCode::Down`/`KeyCode::Up` handler
arithmetic of `src/main.rs:218-263`. -/
theorem C6_navigation_wraps (n sel : Nat) (h1 : 1 ≤ n) (hN : n < USIZE) (hs : sel < n) :
    (sel = n - 1 → navigate_down n sel = 0) ∧
    (sel + 1 < n → navigate_down n sel = sel + 1) ∧
    (sel = 0 → navigate_up n sel = n - 1) ∧
    (0 < sel → navigate_up n sel = sel - 1) ∧
    (n = 1 → navigate_down n sel = sel ∧ navigate_up n sel = sel) := by
  have hN2 : n < 2 ^ 64 := hN
  refine ⟨?_, ?_, ?_, ?_, ?_⟩
  · intro h
    unfold navigate_down USIZE
    split <;> omega
  · intro h
    unfold navigate_down USIZE
    split <;> omega
  · intro h
    unfold navigate_up USIZE
    split <;> omega
  · intro h
    unfold navigate_up USIZE
    split <;> omega
  · intro h
    constructor
    · unfold navigate_down USIZE
      split <;> omega
    · unfold navigate_up USIZE
      split <;> omega

/-- C6 witness: a three-element list navigated from its last index. -/
theorem C6_navigation_wraps_witness :
    (2 = 3 - 1 → navigate_down 3 2 = 0) ∧
    (2 + 1 < 3 → navigate_down 3 2 = 2 + 1) ∧
    (2 = 0 → navigate_up 3 2 = 3 - 1) ∧
    (0 < 2 → navigate_up 3 2 = 2 - 1) ∧
    (3 = 1 → navigate_down 3 2 = 2 ∧ navigate_up 3 2 = 2) :=
  C6_navigation_wraps 3 2 (by decide) (by decide) (by decide)

/-! ## Concrete decode facts for the witnesses -/

theorem utf8Decode_A : utf8Decode [0x41] = some [0x41] := by
  rw [utf8Decode_cons_some (show utf8DecodeStep 0x41 [] = some (0x41, []) from rfl),
    utf8Decode_nil]
  rfl

theorem utf8Decode_B : utf8Decode [0x42] = some [0x42] := by
  rw [utf8Decode_cons_some (show utf8DecodeStep 0x42 [] = some (0x42, []) from rfl),
    utf8Decode_nil]
  rfl

theorem utf8Decode_cont : utf8Decode [0x80] = none :=
  utf8Decode_cons_none rfl

theorem demoGood_runSets : runSets [⟨[[0x41], [0x42]]⟩] = ([[0x41], [0x42]], false) := by
  have hv : ∀ m ∈ [[0x41], [0x42]], (utf8Decode m).isSome := by
    intro m hm
    simp only [List.mem_cons, List.not_mem_nil, or_false] at hm
    rcases hm with rfl | rfl
    · simp [utf8Decode_A]
    · simp [utf8Decode_B]
  have hd := deliverMessages_all_valid [[0x41], [0x42]] hv
  simp only [List.map_cons, List.map_nil, utf8Decode_A, utf8Decode_B, Option.getD_some] at hd
  simp [runSets, hd]

theorem demoGood_goodConsumer : goodConsumer demoGoodConsumer := by
  intro j
  refine ⟨⟨[⟨[[0x41], [0x42]]⟩], rfl, ?_⟩, rfl⟩
  rw [demoGood_runSets]

/-- C1, counterexample: a `PollFailed` transport error inside the
consumer loop makes `poll().unwrap()` panic, terminating the process;
the run is marked panicked, refuting the claim that the loop survives
and returns to `Idle`. -/
theorem C1_error_survives_counterexample :
    ¬ ((start_consumer demoFailPollConsumer 1 0).panicked = false) := by
  have h := start_consumer_poll_error demoFailPollConsumer 0 0 rfl
  rw [h]
  decide

/-- C1, amended: every error of the six kinds maps to an
`unwrap`/`expect` that panics and terminates the process instead of
surfacing a failed operation and returning to `Idle`: `PollFailed`
(`poll().unwrap()`), `DecodeFailed` (`parse_message`'s unwrap, which
moreover leaves a partial log append), `CommitFailed`
(`commit_consumed().unwrap()`, with the batch already delivered),
`MetadataFetchFailed` (`load_metadata_all().unwrap()`),
`OffsetFetchFailed` (`fetch_topic_offsets().unwrap()` inside
`get_offsets`, which aborts the whole refresh), and `SessionOpenFailed`
(`create_consumer`'s `.create().unwrap()`); so the dashboard state is
not protected either. -/
theorem C1_errors_panic (c1 c2 c3 : ConsumerModel) (fuel i j k : Nat)
    (b b2 : Broker) (m2 : ClusterMeta) (ts1 ts2 : List TopicMeta) (t : TopicMeta)
    (create : String → String → Option ConsumerModel) (topic : String)
    (g good bad : List Nat) (rest : List (List Nat)) (sets : List MessageSet)
    (hpoll : c1.polls i = .error ())
    (hg : utf8Decode good = some g) (hbad : utf8Decode bad = none)
    (hdec : c2.polls j = .ok [⟨good :: bad :: rest⟩])
    (hok : c3.polls k = .ok sets) (hnp : (runSets sets).2 = false)
    (hcommit : c3.commits k = .error ())
    (hb : b.metadata = none)
    (hm2 : b2.metadata = some m2) (hts : m2.topics = ts1 ++ t :: ts2)
    (hpre : ∀ u ∈ ts1, (b2.topicOffsets u.name).isSome)
    (ht : b2.topicOffsets t.name = none)
    (hcreate : create topic "somegroup3" = none) :
    start_consumer c1 (fuel + 1) i = { log := [], pollCount := 1, panicked := true } ∧
    start_consumer c2 (fuel + 1) j = { log := [g], pollCount := 1, panicked := true } ∧
    start_consumer c3 (fuel + 1) k =
      { log := (runSets sets).1, pollCount := 1, panicked := true } ∧
    list_topic_details b = .error () ∧
    get_offsets b2 t.name = .error () ∧
    list_topic_details b2 = .error () ∧
    create_consumer create topic = .error () :=
  ⟨start_consumer_poll_error c1 fuel i hpoll,
   start_consumer_decode_error c2 fuel j good bad g rest hg hbad hdec,
   start_consumer_commit_error c3 fuel k sets hok hnp hcommit,
   by simp [list_topic_details, hb],
   by simp [get_offsets, hm2, ht],
   list_topic_details_offset_error b2 m2 ts1 ts2 t hm2 hts hpre ht,
   by simp [create_consumer, hcreate]⟩

/-- C1 witness: the six panic situations on concrete consumers, an
unreachable broker, a broker whose offset queries fail, and a session
opener that fails. -/
theorem C1_errors_panic_witness :
    start_consumer demoFailPollConsumer (0 + 1) 0 =
      { log := [], pollCount := 1, panicked := true } ∧
    start_consumer demoBadPayloadConsumer (0 + 1) 0 =
      { log := [[0x41]], pollCount := 1, panicked := true } ∧
    start_consumer demoCommitFailConsumer (0 + 1) 0 =
      { log := (runSets [⟨[[0x41]]⟩]).1, pollCount := 1, panicked := true } ∧
    list_topic_details downBroker = .error () ∧
    get_offsets demoOffsetFailBroker "orders" = .error () ∧
    list_topic_details demoOffsetFailBroker = .error () ∧
    create_consumer (fun _ _ => none) "orders" = .error () := by
  refine C1_errors_panic demoFailPollConsumer demoBadPayloadConsumer demoCommitFailConsumer
    0 0 0 0 downBroker demoOffsetFailBroker ⟨[⟨"orders", []⟩]⟩ [] [] ⟨"orders", []⟩
    (fun _ _ => none) "orders" [0x41] [0x41] [0x80] [] [⟨[[0x41]]⟩]
    rfl utf8Decode_A utf8Decode_cont rfl rfl ?_ rfl rfl rfl rfl (by simp) rfl rfl
  have hv : ∀ m ∈ [[0x41]], (utf8Decode m).isSome := by
    intro m hm
    simp only [List.mem_singleton] at hm
    subst hm
    simp [utf8Decode_A]
  have hd := deliverMessages_all_valid [[0x41]] hv
  simp [runSets, hd]

/-- C2, counterexample: `start_consumer` does not stop after one
`pollOnce` + `commit`; on a consumer that always has a batch available,
a run of two loop iterations performs two poll round trips, refuting
"exactly one network round trip" per consumption request. -/
theorem C2_single_poll_counterexample :
    ¬ ((start_consumer demoGoodConsumer 2 0).pollCount ≤ 1) := by
  rw [start_consumer_good demoGoodConsumer demoGood_goodConsumer 2 0]
  decide

/-- C2, amended: each library `poll` is indeed one network round trip
returning one finite ordered batch, but `start_consumer` wraps it in an
unbounded `loop`: a run of `fuel` iterations performs exactly `fuel`
poll round trips, never panics on a well-behaved consumer, never
returns, and its log is the ordered concatenation of the per-poll
batches — consumption is a continuous stream, not a single batch. -/
theorem C2_consumption_is_continuous (c : ConsumerModel) (fuel i : Nat)
    (h : goodConsumer c) :
    (start_consumer c fuel i).pollCount = fuel ∧
    (start_consumer c fuel i).panicked = false ∧
    (start_consumer c fuel i).log =
      ((List.range fuel).map (fun k => pollLog c (i + k))).flatten := by
  rw [start_consumer_good c h fuel i]
  exact ⟨rfl, rfl, rfl⟩

/-- C2 witness: two iterations on the demo consumer poll twice. -/
theorem C2_consumption_is_continuous_witness :
    (start_consumer demoGoodConsumer 2 0).pollCount = 2 ∧
    (start_consumer demoGoodConsumer 2 0).panicked = false ∧
    (start_consumer demoGoodConsumer 2 0).log =
      ((List.range 2).map (fun k => pollLog demoGoodConsumer (0 + k))).flatten :=
  C2_consumption_is_continuous demoGoodConsumer 2 0 demoGood_goodConsumer

/-- C7: along any run of the scheduler loop, consecutive `Tick` send
times are at least the tick interval apart (so at most one `Tick` per
interval even under continuous rapid input), and every key event the
environment delivers is forwarded in order — no input is dropped. -/
theorem C7_tick_spacing_no_drop (tickRate : Nat) (s : SchedState)
    (inputs : List SchedInput) (hs : s.lastTick ≤ s.now) :
    List.Chain' (fun a b => a + tickRate ≤ b) (tickTimes (schedRun tickRate s inputs).2) ∧
    inputKeys (schedRun tickRate s inputs).2 = inputs.filterMap SchedInput.key :=
  ⟨(schedRun_tick_spacing tickRate inputs s hs).2,
   schedRun_no_input_dropped tickRate inputs s⟩

/-- C7 witness: the default 200ms interval on a rapid-input trace. -/
theorem C7_tick_spacing_no_drop_witness :
    List.Chain' (fun a b => a + 200 ≤ b)
      (tickTimes (schedRun 200 ⟨0, 0⟩ demoSchedTrace).2) ∧
    inputKeys (schedRun 200 ⟨0, 0⟩ demoSchedTrace).2 =
      demoSchedTrace.filterMap SchedInput.key :=
  C7_tick_spacing_no_drop 200 ⟨0, 0⟩ demoSchedTrace (le_refl 0)

/-- C8: the per-batch message loop decodes every payload as UTF-8; if
every payload is valid the whole batch is delivered in order, and a
non-UTF-8 payload makes `parse_message`'s `unwrap` abort the call at
that message: only the prefix of true decodes before it is delivered —
the bad message is never skipped and never substituted. -/
theorem C8_decode_failure_aborts (ms : List (List Nat)) :
    (∀ m, utf8Decode m = none → parse_message m = Except.error ()) ∧
    ((∀ m ∈ ms, (utf8Decode m).isSome) →
      deliverMessages ms = (ms.map (fun m => (utf8Decode m).getD []), false)) ∧
    (∀ pre bad rest, ms = pre ++ bad :: rest → (∀ m ∈ pre, (utf8Decode m).isSome) →
      utf8Decode bad = none →
      deliverMessages ms = (pre.map (fun m => (utf8Decode m).getD []), true)) := by
  refine ⟨?_, deliverMessages_all_valid ms, ?_⟩
  · intro m hm
    simp [parse_message, hm]
  · rintro pre bad rest rfl hpre hbad
    exact deliverMessages_stops_at_bad pre bad rest hpre hbad

/-- C8 witness: a valid batch is delivered whole; a batch with a stray
continuation byte aborts after the valid prefix. -/
theorem C8_decode_failure_aborts_witness :
    parse_message [0x80] = Except.error () ∧
    deliverMessages [[0x41], [0x42]] = ([[0x41], [0x42]], false) ∧
    deliverMessages [[0x41], [0x80]] = ([[0x41]], true) := by
  have h1 := (C8_decode_failure_aborts [[0x41], [0x42]]).2.1
  have h2 := (C8_decode_failure_aborts [[0x41], [0x80]]).2.2 [[0x41]] [0x80] [] rfl
  have h0 := (C8_decode_failure_aborts [[0x41], [0x80]]).1 [0x80] utf8Decode_cont
  refine ⟨h0, ?_, ?_⟩
  · have hv : ∀ m ∈ [[0x41], [0x42]], (utf8Decode m).isSome := by
      intro m hm
      simp only [List.mem_cons, List.not_mem_nil, or_false] at hm
      rcases hm with rfl | rfl
      · simp [utf8Decode_A]
      · simp [utf8Decode_B]
    have := h1 hv
    simpa [utf8Decode_A, utf8Decode_B] using this
  · have hv : ∀ m ∈ [[0x41]], (utf8Decode m).isSome := by
      intro m hm
      simp only [List.mem_singleton] at hm
      subst hm
      simp [utf8Decode_A]
    have := h2 hv utf8Decode_cont
    simpa [utf8Decode_A] using this

/-- C10: message-payload decoding is a two-sided inverse of UTF-8
encoding on the respective valid domains: `parse_message` maps the
encoding of any scalar string back to that string, and whenever
`parse_message` succeeds on a byte string, re-encoding its result gives
back exactly the original bytes. -/
theorem C10_decode_encode_roundtrip :
    (∀ s, (∀ c ∈ s, isScalar c) → parse_message (utf8Encode s) = Except.ok s) ∧
    (∀ l s, parse_message l = Except.ok s → utf8Encode s = l) := by
  constructor
  · intro s hs
    simp [parse_message, utf8Decode_utf8Encode s hs]
  · intro l s h
    cases hd : utf8Decode l with
    | none => simp [parse_message, hd] at h
    | some s2 =>
      simp only [parse_message, hd, Except.ok.injEq] at h
      subst h
      exact utf8Encode_utf8Decode hd

/-- C10 witness: the round trip on the string "Hé" and on the bytes
`C3 A9` ("é"). -/
theorem C10_decode_encode_roundtrip_witness :
    parse_message (utf8Encode [0x48, 0xE9]) = Except.ok [0x48, 0xE9] ∧
    utf8Encode [0xE9] = [0xC3, 0xA9] := by
  refine ⟨C10_decode_encode_roundtrip.1 [0x48, 0xE9] (by decide), ?_⟩
  apply C10_decode_encode_roundtrip.2 [0xC3, 0xA9]
  have hstep : utf8DecodeStep 0xC3 [0xA9] = some (0xE9, []) := rfl
  rw [parse_message, utf8Decode_cons_some hstep, utf8Decode_nil]
  rfl
